import Mathlib

/-!
Verification development for the in-process job-queue service
(`docs/problemsolutions/job-queue-service/src/fastapi_app.py`).

The Python module is embedded shallowly: every state-mutating endpoint or
helper becomes a pure Lean function from an explicit state (plus the values
the code reads from the environment: the current time, the random jitter
draw, whether queue capacity freed up during a bounded blocking put) to the
updated state and the returned value.  Python `float`s are modelled as `ℚ`,
Python `dict`s as association lists, the bounded `asyncio.Queue` as a `List`
together with its capacity.  The sequential effects a worker coroutine
performs while handling one job (in particular the `await asyncio.sleep`
inside `delayed_requeue`) are additionally captured as a trace of actions,
and the whole engine as a small-step transition system over its shared state.
-/

namespace JobQueueService

/-- Configuration constant `Q_MAX = 1000` (queue capacity). -/
def Q_MAX : ℕ := 1000

/-- Configuration constant `WORKERS = 4` (number of worker tasks). -/
def WORKERS : ℕ := 4

/-- Configuration constant `MAX_ATTEMPTS = 3`. -/
def MAX_ATTEMPTS : ℕ := 3

/-- Configuration constant `BACKOFF_BASE = 0.1` seconds. -/
def BACKOFF_BASE : ℚ := 1/10

/-- Configuration constant `BACKOFF_CAP = 1.0` seconds. -/
def BACKOFF_CAP : ℚ := 1

/-- Configuration constant `JITTER = 0.2` seconds. -/
def JITTER : ℚ := 1/5

/-- Configuration constant `RATE_CAPACITY = 50.0`. -/
def RATE_CAPACITY : ℚ := 50

/-- Configuration constant `RATE_REFILL_PER_SEC = 25.0`. -/
def RATE_REFILL_PER_SEC : ℚ := 25

/-- Configuration constant `CLIENT_RATE_CAPACITY = 10.0`. -/
def CLIENT_RATE_CAPACITY : ℚ := 10

/-- Configuration constant `CLIENT_RATE_REFILL_PER_SEC = 5.0`. -/
def CLIENT_RATE_REFILL_PER_SEC : ℚ := 5

/-- Configuration constant `IDEMP_TTL = 600.0` seconds. -/
def IDEMP_TTL : ℚ := 600

/-- A job item, the typed form of the `item` dict built in `enqueue`:
`{"payload": ..., "fail_times": ..., "attempt": ..., "idempotency_key"?: ...}`.
The payload is opaque to the engine, so it is an arbitrary `ℕ` tag here. -/
structure Job where
  payload : ℕ
  fail_times : ℕ
  attempt : ℕ
  idempotency_key : Option String
  deriving DecidableEq, Repr

/-- Python truthiness of the optional idempotency key: `if idem_key:` is
false both for `None` and for the empty string. -/
def keyTruthy : Option String → Bool
  | none => false
  | some k => k ≠ ""

/-- State of one token bucket: `tokens` and the last-refill timestamp
(the global pair `tokens`/`last_refill`, or one entry of `client_buckets`). -/
structure Bucket where
  tokens : ℚ
  last : ℚ
  deriving DecidableEq, Repr

/-- Shared token-bucket algorithm of `rl_consume` / `rl_consume_client`
(fastapi_app.py lines 103–131): compute `elapsed = max(0, t - last)`,
set `last = t`, refill `tokens = min(cap, tokens + elapsed * refill)`,
then consume `n` tokens iff `tokens ≥ n`.  Returns (allowed?, new bucket). -/
def bucketConsume (cap refill : ℚ) (b : Bucket) (t n : ℚ) : Bool × Bucket :=
  let elapsed := max 0 (t - b.last)
  let tokens := min cap (b.tokens + elapsed * refill)
  if n ≤ tokens then (true, ⟨tokens - n, t⟩) else (false, ⟨tokens, t⟩)

/-- `rl_consume(n)` on the global bucket (lines 103–114), with the current
time `t` passed explicitly. -/
def rl_consume (b : Bucket) (t n : ℚ) : Bool × Bucket :=
  bucketConsume RATE_CAPACITY RATE_REFILL_PER_SEC b t n

/-- The `client_buckets` dict, `client_id -> {tokens, last}`. -/
abbrev ClientBuckets := List (String × Bucket)

/-- Association-list lookup (Python `dict.get`: the value at `k`, or
`None`). -/
def alistGet {β : Type} (m : List (String × β)) (k : String) : Option β :=
  match m with
  | [] => none
  | kv :: rest => if kv.1 = k then some kv.2 else alistGet rest k

/-- Association-list store (Python `d[k] = v`: replace the value at an
existing key in place, else append the new entry at the end — the maps built
here are always duplicate-free). -/
def alistSet {β : Type} (m : List (String × β)) (k : String) (v : β) :
    List (String × β) :=
  match m with
  | [] => [(k, v)]
  | kv :: rest => if kv.1 = k then (k, v) :: rest else kv :: alistSet rest k v

/-- `rl_consume_client(client_id, n)` (lines 117–131): get or lazily create
the client's bucket (created full: `tokens = CLIENT_RATE_CAPACITY`,
`last = now`), then run the same refill-and-consume algorithm. -/
def rl_consume_client (m : ClientBuckets) (client_id : String) (t n : ℚ) :
    Bool × ClientBuckets :=
  let b := match alistGet m client_id with
    | some b => b
    | none => ⟨CLIENT_RATE_CAPACITY, t⟩
  let r := bucketConsume CLIENT_RATE_CAPACITY CLIENT_RATE_REFILL_PER_SEC b t n
  (r.1, alistSet m client_id r.2)

/-- `k` back-to-back unit-cost `bucketConsume` calls, all at the same
timestamp `t` (the spec's "zero elapsed time" scenario).  Returns the final
bucket and the number of admitted calls. -/
def bucketBurst (cap refill : ℚ) (b : Bucket) (t : ℚ) : ℕ → Bucket × ℕ
  | 0 => (b, 0)
  | n + 1 =>
    let r := bucketConsume cap refill b t 1
    let rest := bucketBurst cap refill r.2 t n
    (rest.1, (if r.1 then 1 else 0) + rest.2)

/-- Status field of an idempotency record: `"accepted"` or `"completed"`. -/
inductive IdemStatus where
  | accepted
  | completed
  deriving DecidableEq, Repr

/-- One record of the in-memory idempotency table:
`{status, result: None, expires_at}` (the `result` field is never set to
anything but `None` by the code, so it is omitted). -/
structure IdemRec where
  status : IdemStatus
  expires_at : ℚ
  deriving DecidableEq, Repr

/-- The in-memory `idempotency` dict (the default `IDEMP_BACKEND="memory"`;
the optional sqlite backend is behind an env flag and not modelled). -/
abbrev IdemMap := List (String × IdemRec)

/-- `idem_get_status(key)` (lines 214–231, memory branch): `None` for a
falsy key or a missing record; otherwise the status iff `expires_at > now`. -/
def idem_get_status (m : IdemMap) (k : String) (t : ℚ) : Option IdemStatus :=
  if k = "" then none
  else match alistGet m k with
    | none => none
    | some rec => if t < rec.expires_at then some rec.status else none

/-- `idem_set_accepted(key)` (lines 234–246, memory branch): no-op for a
falsy key, otherwise store `{status: accepted, expires_at: now + IDEMP_TTL}`. -/
def idem_set_accepted (m : IdemMap) (k : String) (t : ℚ) : IdemMap :=
  if k = "" then m
  else alistSet m k ⟨.accepted, t + IDEMP_TTL⟩

/-- `idem_set_completed(key)` (lines 249–264, memory branch): no-op for a
falsy key or a missing record; otherwise update the existing record in place
to `{status: completed, expires_at: now + IDEMP_TTL}`. -/
def idem_set_completed (m : IdemMap) (k : String) (t : ℚ) : IdemMap :=
  if k = "" then m
  else match alistGet m k with
    | none => m
    | some _ => alistSet m k ⟨.completed, t + IDEMP_TTL⟩

/-- One pass of the `_idem_sweeper` background task (lines 288–291, memory
branch): drop every record with `expires_at ≤ t`. -/
def idem_sweep (m : IdemMap) (t : ℚ) : IdemMap :=
  m.filter (fun kv => t < kv.2.expires_at)

/-- Python slice `xs[start:]` for an integer `start` (used by `/dlq`'s
`dlq[-limit:]`): a negative start counts from the end, clamped at 0; a
non-negative start is clamped at `len`. -/
def pySliceFrom {α : Type} (xs : List α) (start : ℤ) : List α :=
  if start < 0 then xs.drop (max 0 ((xs.length : ℤ) + start)).toNat
  else xs.drop (min (xs.length : ℤ) start).toNat

/-- `GET /dlq?limit=` (lines 347–350): returns `{count: len(dlq),
items: dlq[-limit:]}`. -/
def dlq_list (dlq : List Job) (limit : ℤ) : ℕ × List Job :=
  (dlq.length, pySliceFrom dlq (-limit))

/-- Loop body of `POST /dlq/requeue` (lines 356–365): while the DLQ is
nonempty and `moved < limit`, pop the front job, increment `moved`
(before the enqueue is attempted — exactly as the code does), leave its
`attempt` as is (`item["attempt"] = int(item.get("attempt", 0))` is the
identity on a typed job), and `put_nowait` it; if the queue is full, push
the job back to the front and break.  Returns (dlq, queue, moved). -/
def dlq_requeue_loop (dlq queue : List Job) (cap : ℕ) (limit : ℤ)
    (moved : ℕ) : List Job × List Job × ℕ :=
  match dlq with
  | [] => ([], queue, moved)
  | item :: rest =>
    if (moved : ℤ) < limit then
      let moved := moved + 1
      if cap ≤ queue.length then (item :: rest, queue, moved)
      else dlq_requeue_loop rest (queue ++ [item]) cap limit moved
    else (item :: rest, queue, moved)

/-- `POST /dlq/requeue?limit=` (lines 353–366): run the loop from
`moved = 0`; the endpoint's response is `{"requeued": moved}`. -/
def dlq_requeue (dlq queue : List Job) (cap : ℕ) (limit : ℤ) :
    List Job × List Job × ℕ :=
  dlq_requeue_loop dlq queue cap limit 0

/-- `delayed_requeue(item, delay)` (lines 134–145), state effect after the
`await asyncio.sleep(delay)` has elapsed: `put_nowait` the item if the queue
has room; otherwise attempt one bounded `queue.put` with a 1-second timeout —
the oracle `freed` says whether capacity became available within that bound
(when it did, the item ends up at the back of the then-current queue, which
the model keeps abstract by appending) — and if that times out too, append
the item to the DLQ.  Returns (queue, dlq). -/
def delayed_requeue (queue dlq : List Job) (cap : ℕ) (item : Job)
    (freed : Bool) : List Job × List Job :=
  if queue.length < cap then (queue ++ [item], dlq)
  else if freed then (queue ++ [item], dlq)
  else (queue, dlq ++ [item])

/-- The shared mutable state touched by `process_job` and the endpoints:
the bounded queue, the DLQ list, the idempotency table, the token buckets
and the four counters. -/
structure EngineState where
  queue : List Job
  dlq : List Job
  idem : IdemMap
  gbucket : Bucket
  cbuckets : ClientBuckets
  enqueued : ℕ
  processed : ℕ
  failures : ℕ
  inProgress : ℕ
  deriving DecidableEq, Repr

/-- The backoff delay computed at lines 180–181:
`min(BACKOFF_BASE * 2^(next_attempt-1) + u, BACKOFF_CAP)` where `u` is the
jitter draw `random.uniform(0, JITTER)`. -/
def retry_delay (next_attempt : ℕ) (u : ℚ) : ℚ :=
  min (BACKOFF_BASE * 2 ^ (next_attempt - 1) + u) BACKOFF_CAP

/-- `process_job(item)` (lines 148–186) as a state transformer.  `t` is the
current time (read when marking idempotency completed), `u` the value of
`random.uniform(0, JITTER)`, and `freed` the `delayed_requeue` oracle.
Increment `in_progress`; if `attempt < fail_times` the simulated work
raises: increment `failures`, and with `next_attempt = attempt + 1` either
set `item.attempt = next_attempt` and (after sleeping the backoff delay on
this same coroutine) run `delayed_requeue`, or — when
`next_attempt ≥ MAX_ATTEMPTS` — append the item to the DLQ unchanged.
On success increment `processed` and mark a truthy idempotency key
completed. -/
def process_job (cap : ℕ) (s : EngineState) (item : Job) (t u : ℚ)
    (freed : Bool) : EngineState :=
  let s := { s with inProgress := s.inProgress + 1 }
  if item.attempt < item.fail_times then
    let s := { s with failures := s.failures + 1 }
    let next := item.attempt + 1
    if next < MAX_ATTEMPTS then
      let item' := { item with attempt := next }
      let _delay := retry_delay next u
      let qd := delayed_requeue s.queue s.dlq cap item' freed
      { s with queue := qd.1, dlq := qd.2 }
    else
      { s with dlq := s.dlq ++ [item] }
  else
    let s := { s with processed := s.processed + 1 }
    match item.idempotency_key with
    | some k => if k ≠ "" then { s with idem := idem_set_completed s.idem k t } else s
    | none => s

/-- Result of the `POST /enqueue` endpoint: the two 429 rate-limit
rejections, the idempotent-duplicate 200, the 429 queue-full rejection, and
the success response `{"status": "enqueued", "idempotent": bool(idem_key)}`. -/
inductive EnqueueResult where
  | rateLimited
  | rateLimitedClient
  | duplicate (st : IdemStatus)
  | queueFull
  | enqueuedOk (idempotent : Bool)
  deriving DecidableEq, Repr

/-- `POST /enqueue` (lines 369–409) as a state transformer.  In order:
(1) `rl_consume(1.0)` on the global bucket, 429 on failure; (2)
`rl_consume_client(client_id, 1.0)`, 429 on failure; (3) for a truthy
idempotency key, `idem_get_status` — a non-`None` status returns the
duplicate response without touching the queue; (4) the queue-full check and
`put_nowait` (sequentially these are one capacity test); (5)
`idem_set_accepted` for a truthy key; (6) `enqueued += 1`.  The new item
carries the payload, `fail_times`, `attempt = 0` and the truthy key. -/
def enqueue (cap : ℕ) (s : EngineState) (payload fail_times : ℕ)
    (client_id : String) (idem_key : Option String) (t : ℚ) :
    EnqueueResult × EngineState :=
  let g := rl_consume s.gbucket t 1
  let s := { s with gbucket := g.2 }
  if !g.1 then (.rateLimited, s)
  else
    let c := rl_consume_client s.cbuckets client_id t 1
    let s := { s with cbuckets := c.2 }
    if !c.1 then (.rateLimitedClient, s)
    else
      match (if keyTruthy idem_key then
          idem_get_status s.idem (idem_key.getD "") t else none) with
      | some st => (.duplicate st, s)
      | none =>
        if cap ≤ s.queue.length then (.queueFull, s)
        else
          let item : Job :=
            { payload := payload, fail_times := fail_times, attempt := 0,
              idempotency_key := if keyTruthy idem_key then idem_key else none }
          let s := { s with queue := s.queue ++ [item] }
          let s := if keyTruthy idem_key then
              { s with idem := idem_set_accepted s.idem (idem_key.getD "") t }
            else s
          (.enqueuedOk (keyTruthy idem_key), { s with enqueued := s.enqueued + 1 })

/-- The awaited effects a single coroutine performs, in program order.  Used
to record what the worker task itself executes while handling one job:
`await`ing a coroutine runs its effects inline on the awaiting task, so
everything in `process_job`'s body — including the `await asyncio.sleep`
reached through `await delayed_requeue(item, delay)` at line 182 — appears
on the worker's own trace. -/
inductive Action where
  | getItem
  | incrInProgress
  | raiseFailure
  | incrProcessed
  | setCompleted (k : String)
  | incrFailures
  | sleep (d : ℚ)
  | putNowait
  | blockingPut
  | appendDlq
  | taskDone
  | decrInProgress
  deriving DecidableEq, Repr

/-- Effect trace of `delayed_requeue(item, delay)` (lines 134–145) as run by
the task that awaits it: first `await asyncio.sleep(delay)`, then either the
immediate `put_nowait`, or on `QueueFull` the bounded blocking put — followed
by the DLQ append when that times out (`freed = false`). -/
def delayed_requeue_trace (delay : ℚ) (queueFull freed : Bool) : List Action :=
  Action.sleep delay ::
    (if !queueFull then [Action.putNowait]
     else if freed then [Action.blockingPut]
     else [Action.blockingPut, Action.appendDlq])

/-- Effect trace of `process_job(item)` (lines 148–186) as run by the task
that awaits it.  The retry branch computes `delay` and then `await`s
`delayed_requeue(item, delay)` directly (line 182) — it does not wrap it in
`asyncio.create_task` — so the whole `delayed_requeue_trace`, sleep
included, runs inline on the awaiting task. -/
def process_job_trace (item : Job) (u : ℚ) (queueFull freed : Bool) :
    List Action :=
  Action.incrInProgress ::
    (if item.attempt < item.fail_times then
      Action.raiseFailure :: Action.incrFailures ::
        (if item.attempt + 1 < MAX_ATTEMPTS then
          delayed_requeue_trace (retry_delay (item.attempt + 1) u) queueFull freed
        else [Action.appendDlq])
    else
      Action.incrProcessed ::
        (match item.idempotency_key with
          | some k => if k ≠ "" then [Action.setCompleted k] else []
          | none => []))

/-- One iteration of `worker_loop` (lines 188–198) on the worker's own task:
`await queue_immediate.get()`, then `await process_job(item)` (inline), then
the `finally` block (`task_done`; decrement `in_progress`).  The worker only
returns to `queue_immediate.get()` — i.e. becomes able to pull the next
job — after every action of this trace has run. -/
def worker_iteration_trace (item : Job) (u : ℚ) (queueFull freed : Bool) :
    List Action :=
  Action.getItem :: process_job_trace item u queueFull freed
    ++ [Action.taskDone, Action.decrInProgress]

/-- Where a worker coroutine stands in `worker_loop`: before `get()`
(`idle`), between `get()` and `process_job` (`got`), or after `process_job`
in the `finally` block (`done`). -/
inductive Phase where
  | idle
  | got (item : Job)
  | done
  deriving DecidableEq, Repr

/-- Whole-system state: the shared engine state plus each worker's phase. -/
structure SysState where
  engine : EngineState
  phases : Fin WORKERS → Phase

/-- Number of workers that have run `process_job`'s `in_progress += 1` and
not yet the `finally` decrement. -/
def countDone (f : Fin WORKERS → Phase) : ℕ :=
  ∑ w, if f w = Phase.done then 1 else 0

/-- Small-step transition relation of the engine: admissions, the three
stages of a worker iteration (pull an item, run `process_job` with its
`in_progress` increment, run the `finally` decrement `max(0, n-1)` — on `ℕ`
that is truncated subtraction), the DLQ endpoints and the idempotency
sweeper.  Steps are the lock-delimited atomic sections of the source. -/
inductive Step : SysState → SysState → Prop where
  | enqueueStep (s : SysState) (p ft : ℕ) (cid : String)
      (key : Option String) (t : ℚ) :
      Step s ⟨(enqueue Q_MAX s.engine p ft cid key t).2, s.phases⟩
  | pull (s : SysState) (w : Fin WORKERS) (j : Job) (rest : List Job) :
      s.phases w = .idle → s.engine.queue = j :: rest →
      Step s ⟨{ s.engine with queue := rest },
        Function.update s.phases w (.got j)⟩
  | exec (s : SysState) (w : Fin WORKERS) (j : Job) (t u : ℚ)
      (freed : Bool) :
      s.phases w = .got j →
      Step s ⟨process_job Q_MAX s.engine j t u freed,
        Function.update s.phases w .done⟩
  | finish (s : SysState) (w : Fin WORKERS) :
      s.phases w = .done →
      Step s ⟨{ s.engine with inProgress := s.engine.inProgress - 1 },
        Function.update s.phases w .idle⟩
  | dlqRequeueStep (s : SysState) (limit : ℤ) :
      Step s ⟨{ s.engine with
        dlq := (dlq_requeue s.engine.dlq s.engine.queue Q_MAX limit).1,
        queue := (dlq_requeue s.engine.dlq s.engine.queue Q_MAX limit).2.1 },
        s.phases⟩
  | sweepStep (s : SysState) (t : ℚ) :
      Step s ⟨{ s.engine with idem := idem_sweep s.engine.idem t }, s.phases⟩

/-- Reflexive-transitive closure of `Step`. -/
inductive Reachable : SysState → SysState → Prop where
  | refl (s : SysState) : Reachable s s
  | tail {s t v : SysState} : Reachable s t → Step t v → Reachable s v

/-- The state at startup: empty queue, DLQ and tables, a full global bucket,
all counters zero, every worker idle in its loop. -/
def initState : SysState :=
  { engine :=
      { queue := [], dlq := [], idem := [],
        gbucket := ⟨RATE_CAPACITY, 0⟩, cbuckets := [],
        enqueued := 0, processed := 0, failures := 0, inProgress := 0 },
    phases := fun _ => .idle }

/-! ### Helper lemmas -/

theorem alistGet_alistSet_self {β : Type} (m : List (String × β)) (k : String)
    (v : β) : alistGet (alistSet m k v) k = some v := by
  induction m with
  | nil => simp [alistGet, alistSet]
  | cons kv rest ih =>
    by_cases h : kv.1 = k <;> simp [alistGet, alistSet, h, ih]

theorem alistGet_alistSet_ne {β : Type} (m : List (String × β)) (k k' : String)
    (v : β) (h : k' ≠ k) : alistGet (alistSet m k v) k' = alistGet m k' := by
  have h' : k ≠ k' := Ne.symm h
  induction m with
  | nil => simp [alistGet, alistSet, h']
  | cons kv rest ih =>
    by_cases hk : kv.1 = k
    · simp [alistGet, alistSet, hk, h']
    · simp [alistGet, alistSet, hk, ih]

/-- Behaviour of one `bucketConsume` call, split by outcome. -/
theorem bucketConsume_spec (cap refill : ℚ) (b : Bucket) (t n : ℚ) :
    ((bucketConsume cap refill b t n).1 = true ↔
      n ≤ min cap (b.tokens + max 0 (t - b.last) * refill)) ∧
    (bucketConsume cap refill b t n).2.last = t ∧
    (bucketConsume cap refill b t n).2.tokens =
      (if n ≤ min cap (b.tokens + max 0 (t - b.last) * refill) then
        min cap (b.tokens + max 0 (t - b.last) * refill) - n
      else min cap (b.tokens + max 0 (t - b.last) * refill)) := by
  unfold bucketConsume
  by_cases h : n ≤ min cap (b.tokens + max 0 (t - b.last) * refill) <;>
    simp [h]

/-- After any call the bucket holds at most `cap` tokens. -/
theorem bucketConsume_tokens_le (cap refill : ℚ) (b : Bucket) (t n : ℚ)
    (hn : 0 ≤ n) : (bucketConsume cap refill b t n).2.tokens ≤ cap := by
  unfold bucketConsume
  by_cases h : n ≤ min cap (b.tokens + max 0 (t - b.last) * refill) <;>
    simp only [h, if_pos, if_neg, not_false_iff]
  · calc min cap (b.tokens + max 0 (t - b.last) * refill) - n
        ≤ min cap (b.tokens + max 0 (t - b.last) * refill) := by linarith
      _ ≤ cap := min_le_left _ _
  · exact min_le_left _ _

/-- With zero elapsed time, the number of admitted unit-cost calls is
bounded by the (refilled) token level after the first refill, itself at most
`cap`. -/
theorem bucketBurst_le (cap refill : ℚ) (t : ℚ) :
    ∀ (k : ℕ) (b : Bucket), t ≤ b.last →
      ((bucketBurst cap refill b t k).2 : ℚ) ≤ max 0 (min cap b.tokens) := by
  intro k
  induction k with
  | zero => intro b _; simp [bucketBurst, le_max_left]
  | succ n ih =>
    intro b hb
    have helapsed : max 0 (t - b.last) = 0 := max_eq_left (by linarith)
    have hcon : bucketConsume cap refill b t 1 =
        (if (1 : ℚ) ≤ min cap b.tokens then
          ((true : Bool), (⟨min cap b.tokens - 1, t⟩ : Bucket))
        else (false, ⟨min cap b.tokens, t⟩)) := by
      simp only [bucketConsume, helapsed, zero_mul, add_zero]
    unfold bucketBurst
    rw [hcon]
    by_cases h : (1 : ℚ) ≤ min cap b.tokens
    · have hrec := ih ⟨min cap b.tokens - 1, t⟩ le_rfl
      dsimp only at hrec
      have hmin : min cap (min cap b.tokens - 1) = min cap b.tokens - 1 :=
        min_eq_right (le_trans (by linarith) (min_le_left cap b.tokens))
      have hmax : max 0 (min cap b.tokens - 1) = min cap b.tokens - 1 :=
        max_eq_right (by linarith)
      rw [hmin, hmax] at hrec
      have hm3 : max 0 (min cap b.tokens) = min cap b.tokens :=
        max_eq_right (by linarith)
      simp only [h, if_pos, if_true]
      rw [hm3]
      push_cast
      linarith
    · have hrec := ih ⟨min cap b.tokens, t⟩ le_rfl
      dsimp only at hrec
      have hmin : min cap (min cap b.tokens) = min cap b.tokens :=
        min_eq_right (min_le_left _ _)
      rw [hmin] at hrec
      simp only [h, if_neg, not_false_iff, Bool.false_eq_true, if_false,
        zero_add]
      calc ((bucketBurst cap refill ⟨min cap b.tokens, t⟩ t n).2 : ℚ)
          ≤ max 0 (min cap (min cap b.tokens)) := by rw [hmin]; exact hrec
        _ ≤ max 0 (min cap b.tokens) := by rw [hmin]

/-! ### C7 — token-bucket refill/consume algorithm -/

/-- C7: every `tryConsume` — `rl_consume` on the global bucket and
`rl_consume_client` on the addressed per-client bucket run the one
`bucketConsume` algorithm — first refills
`tokens = min(capacity, tokens + elapsed * refillRate)` and sets
`lastRefill = now`; it admits and subtracts the cost iff the refilled level
is at least the cost; tokens never exceed the capacity afterwards; and with
zero elapsed time at most `capacity` unit-cost calls are admitted (for both
the global and the per-client capacities). -/
theorem rate_limiter_refill_consume_correct :
    (∀ b t n, rl_consume b t n =
      bucketConsume RATE_CAPACITY RATE_REFILL_PER_SEC b t n) ∧
    (∀ m cid t n b, alistGet m cid = some b →
      rl_consume_client m cid t n =
        ((bucketConsume CLIENT_RATE_CAPACITY CLIENT_RATE_REFILL_PER_SEC b t n).1,
         alistSet m cid
           (bucketConsume CLIENT_RATE_CAPACITY CLIENT_RATE_REFILL_PER_SEC b t n).2)) ∧
    (∀ cap refill b t n,
      ((bucketConsume cap refill b t n).1 = true ↔
        n ≤ min cap (b.tokens + max 0 (t - b.last) * refill)) ∧
      (bucketConsume cap refill b t n).2.last = t ∧
      (bucketConsume cap refill b t n).2.tokens =
        (if n ≤ min cap (b.tokens + max 0 (t - b.last) * refill) then
          min cap (b.tokens + max 0 (t - b.last) * refill) - n
        else min cap (b.tokens + max 0 (t - b.last) * refill))) ∧
    (∀ cap refill b t n, 0 ≤ n →
      (bucketConsume cap refill b t n).2.tokens ≤ cap) ∧
    (∀ b t k, t ≤ b.last →
      ((bucketBurst RATE_CAPACITY RATE_REFILL_PER_SEC b t k).2 : ℚ)
        ≤ RATE_CAPACITY) ∧
    (∀ b t k, t ≤ b.last →
      ((bucketBurst CLIENT_RATE_CAPACITY CLIENT_RATE_REFILL_PER_SEC b t k).2 : ℚ)
        ≤ CLIENT_RATE_CAPACITY) := by
  refine ⟨fun _ _ _ => rfl, ?_, bucketConsume_spec, bucketConsume_tokens_le,
    ?_, ?_⟩
  · intro m cid t n b hb
    unfold rl_consume_client
    rw [hb]
  · intro b t k hb
    calc ((bucketBurst RATE_CAPACITY RATE_REFILL_PER_SEC b t k).2 : ℚ)
        ≤ max 0 (min RATE_CAPACITY b.tokens) := bucketBurst_le _ _ _ _ _ hb
      _ ≤ max 0 RATE_CAPACITY :=
          max_le_max le_rfl (min_le_left _ _)
      _ = RATE_CAPACITY := by norm_num [RATE_CAPACITY]
  · intro b t k hb
    calc ((bucketBurst CLIENT_RATE_CAPACITY CLIENT_RATE_REFILL_PER_SEC b t k).2 : ℚ)
        ≤ max 0 (min CLIENT_RATE_CAPACITY b.tokens) := bucketBurst_le _ _ _ _ _ hb
      _ ≤ max 0 CLIENT_RATE_CAPACITY :=
          max_le_max le_rfl (min_le_left _ _)
      _ = CLIENT_RATE_CAPACITY := by norm_num [CLIENT_RATE_CAPACITY]

/-- Witness for C7 at a concrete bucket: a call admitting at capacity and a
burst of 6 unit calls on a full client bucket admitting at most 10. -/
theorem rate_limiter_refill_consume_correct_witness :
    alistGet ([("c", ⟨10, 5⟩)] : ClientBuckets) "c" = some ⟨10, 5⟩ ∧
    rl_consume_client [("c", ⟨10, 5⟩)] "c" 5 1 =
      ((bucketConsume CLIENT_RATE_CAPACITY CLIENT_RATE_REFILL_PER_SEC
        ⟨10, 5⟩ 5 1).1,
       alistSet [("c", ⟨10, 5⟩)] "c"
        (bucketConsume CLIENT_RATE_CAPACITY CLIENT_RATE_REFILL_PER_SEC
          ⟨10, 5⟩ 5 1).2) ∧
    (bucketConsume RATE_CAPACITY RATE_REFILL_PER_SEC ⟨50, 3⟩ 3 1).2.tokens
      ≤ RATE_CAPACITY ∧
    ((bucketBurst CLIENT_RATE_CAPACITY CLIENT_RATE_REFILL_PER_SEC
        ⟨10, 7⟩ 7 6).2 : ℚ) ≤ CLIENT_RATE_CAPACITY := by
  have h := rate_limiter_refill_consume_correct
  exact ⟨by decide, h.2.1 _ _ _ _ _ (by decide),
    h.2.2.2.1 _ _ _ _ _ (by norm_num), h.2.2.2.2.2 _ _ _ (le_refl (7 : ℚ))⟩

/-! ### C10 — `idem_set_completed` on an absent key is a no-op -/

/-- C10: `idem_set_completed` never creates a record — on a key with no
record in the in-memory store it returns the store unchanged; hence after
the sweeper has removed a key, marking it completed leaves no record at all,
`idem_get_status` stays `None` at every later time, and a subsequent
`enqueue` with that key is never answered `Duplicate`. -/
theorem idem_set_completed_absent_noop :
    (∀ (m : IdemMap) (k : String) (t : ℚ), alistGet m k = none →
      idem_set_completed m k t = m) ∧
    (∀ (m : IdemMap) (k : String) (t0 t1 : ℚ),
      alistGet (idem_sweep m t0) k = none →
      alistGet (idem_set_completed (idem_sweep m t0) k t1) k = none) ∧
    (∀ (m : IdemMap) (k : String) (t0 t1 t2 : ℚ),
      alistGet (idem_sweep m t0) k = none →
      idem_get_status (idem_set_completed (idem_sweep m t0) k t1) k t2
        = none) ∧
    (∀ (cap : ℕ) (s : EngineState) (p ft : ℕ) (cid k : String) (t : ℚ)
      (st : IdemStatus), alistGet s.idem k = none →
      (enqueue cap s p ft cid (some k) t).1 ≠ .duplicate st) := by
  have hnoop : ∀ (m : IdemMap) (k : String) (t : ℚ), alistGet m k = none →
      idem_set_completed m k t = m := by
    intro m k t hget
    unfold idem_set_completed
    by_cases hk : k = ""
    · simp [hk]
    · simp [hk, hget]
  have hstatus : ∀ (m : IdemMap) (k : String) (t : ℚ),
      alistGet m k = none → idem_get_status m k t = none := by
    intro m k t hget
    unfold idem_get_status
    by_cases hk : k = ""
    · simp [hk]
    · simp [hk, hget]
  refine ⟨hnoop, ?_, ?_, ?_⟩
  · intro m k t0 t1 hget
    rw [hnoop _ _ _ hget]; exact hget
  · intro m k t0 t1 t2 hget
    rw [hnoop _ _ _ hget]
    exact hstatus _ _ _ hget
  · intro cap s p ft cid k t st hget
    unfold enqueue
    by_cases hg : (rl_consume s.gbucket t 1).1
    · by_cases hc : (rl_consume_client s.cbuckets cid t 1).1
      · by_cases hk : keyTruthy (some k)
        · have hkey : (some k).getD "" = k := rfl
          simp only [hg, hc, hk, Bool.not_true, Bool.false_eq_true, if_false,
            if_true, hkey, hstatus _ _ _ hget]
          by_cases hq : cap ≤ s.queue.length <;> simp [hq]
        · simp only [hg, hc, hk, Bool.not_true, Bool.false_eq_true, if_false,
            if_true]
          by_cases hq : cap ≤ s.queue.length <;> simp [hq]
      · simp [hg, hc]
    · simp [hg]

/-- Witness for C10: a swept-out key, completed afterwards, stays invisible
and a resubmission is not reported as a duplicate. -/
theorem idem_set_completed_absent_noop_witness :
    alistGet ([("k", ⟨.accepted, 10⟩)] : IdemMap) "x" = none ∧
    idem_set_completed [("k", ⟨.accepted, 10⟩)] "x" 20
      = [("k", ⟨.accepted, 10⟩)] ∧
    alistGet (idem_sweep ([("k", ⟨.accepted, 10⟩)] : IdemMap) 10) "k"
      = none ∧
    idem_get_status
      (idem_set_completed (idem_sweep [("k", ⟨.accepted, 10⟩)] 10) "k" 20)
      "k" 25 = none ∧
    (enqueue 5 initState.engine 0 0 "c" (some "k") 0).1
      ≠ .duplicate .completed := by
  have h := idem_set_completed_absent_noop
  refine ⟨by decide, h.1 _ _ _ (by decide), by decide,
    h.2.2.1 _ _ _ _ _ (by decide), h.2.2.2 _ _ _ _ _ _ _ _ (by decide)⟩

/-! ### C5 — idempotency-key TTL window -/

/-- C5: within the TTL window a key accepted at `t0` reads back `accepted`
(so a second submission that passes the rate limiters is answered
`Duplicate(accepted)`); after completion it reads back `completed`; once the
current time passes the record's `expires_at` the key reads back `None` and
an `enqueue` with it is never answered `Duplicate`; and both
`idem_set_accepted` and `idem_set_completed` write
`expires_at = now + IDEMP_TTL`. -/
theorem idempotency_ttl_window :
    (∀ (m : IdemMap) (k : String) (t0 t : ℚ), k ≠ "" → t < t0 + IDEMP_TTL →
      idem_get_status (idem_set_accepted m k t0) k t = some .accepted) ∧
    (∀ (cap : ℕ) (s : EngineState) (p ft : ℕ) (cid k : String) (t : ℚ)
      (st : IdemStatus), k ≠ "" →
      (rl_consume s.gbucket t 1).1 = true →
      (rl_consume_client s.cbuckets cid t 1).1 = true →
      idem_get_status s.idem k t = some st →
      (enqueue cap s p ft cid (some k) t).1 = .duplicate st) ∧
    (∀ (m : IdemMap) (k : String) (t0 t1 t : ℚ), k ≠ "" →
      t < t1 + IDEMP_TTL →
      idem_get_status (idem_set_completed (idem_set_accepted m k t0) k t1) k t
        = some .completed) ∧
    (∀ (m : IdemMap) (k : String) (r : IdemRec) (t : ℚ),
      alistGet m k = some r → r.expires_at < t →
      idem_get_status m k t = none) ∧
    (∀ (cap : ℕ) (s : EngineState) (p ft : ℕ) (cid k : String) (t : ℚ)
      (st : IdemStatus), idem_get_status s.idem k t = none →
      (enqueue cap s p ft cid (some k) t).1 ≠ .duplicate st) ∧
    (∀ (m : IdemMap) (k : String) (t : ℚ), k ≠ "" →
      alistGet (idem_set_accepted m k t) k = some ⟨.accepted, t + IDEMP_TTL⟩) ∧
    (∀ (m : IdemMap) (k : String) (r : IdemRec) (t : ℚ), k ≠ "" →
      alistGet m k = some r →
      alistGet (idem_set_completed m k t) k
        = some ⟨.completed, t + IDEMP_TTL⟩) := by
  have hacc : ∀ (m : IdemMap) (k : String) (t : ℚ), k ≠ "" →
      alistGet (idem_set_accepted m k t) k = some ⟨.accepted, t + IDEMP_TTL⟩ := by
    intro m k t hk
    unfold idem_set_accepted
    simp [hk, alistGet_alistSet_self]
  have hcomp : ∀ (m : IdemMap) (k : String) (r : IdemRec) (t : ℚ), k ≠ "" →
      alistGet m k = some r →
      alistGet (idem_set_completed m k t) k
        = some ⟨.completed, t + IDEMP_TTL⟩ := by
    intro m k r t hk hget
    unfold idem_set_completed
    simp [hk, hget, alistGet_alistSet_self]
  refine ⟨?_, ?_, ?_, ?_, ?_, hacc, hcomp⟩
  · intro m k t0 t hk ht
    unfold idem_get_status
    simp [hk, hacc m k t0 hk, ht]
  · intro cap s p ft cid k t st hk hg hc hst
    unfold enqueue
    have hkey : keyTruthy (some k) = true := by simp [keyTruthy, hk]
    simp [hg, hc, hkey, hst]
  · intro m k t0 t1 t hk ht
    unfold idem_get_status
    simp [hk, hcomp _ k ⟨.accepted, t0 + IDEMP_TTL⟩ t1 hk (hacc m k t0 hk), ht]
  · intro m k r t hget hexp
    unfold idem_get_status
    by_cases hk : k = ""
    · simp [hk]
    · simp [hk, hget, not_lt_of_gt hexp, le_of_lt hexp]
  · intro cap s p ft cid k t st hst
    unfold enqueue
    by_cases hg : (rl_consume s.gbucket t 1).1
    · by_cases hc : (rl_consume_client s.cbuckets cid t 1).1
      · by_cases hk : keyTruthy (some k)
        · have hkey : (some k).getD "" = k := rfl
          simp only [hg, hc, hk, Bool.not_true, Bool.false_eq_true, if_false,
            if_true, hkey, hst]
          by_cases hq : cap ≤ s.queue.length <;> simp [hq]
        · simp only [hg, hc, hk, Bool.not_true, Bool.false_eq_true, if_false,
            if_true]
          by_cases hq : cap ≤ s.queue.length <;> simp [hq]
      · simp [hg, hc]
    · simp [hg]

/-- Witness for C5 at concrete times: accept at 0, read `accepted` at 5,
complete at 5, read `completed` at 100, expire and read `None` at 700. -/
theorem idempotency_ttl_window_witness :
    idem_get_status (idem_set_accepted [] "k" 0) "k" 5 = some .accepted ∧
    idem_get_status (idem_set_completed (idem_set_accepted [] "k" 0) "k" 5)
      "k" 100 = some .completed ∧
    alistGet (idem_set_accepted ([] : IdemMap) "k" 0) "k"
      = some ⟨.accepted, 600⟩ ∧
    idem_get_status (idem_set_accepted [] "k" 0) "k" 700 = none := by
  have h := idempotency_ttl_window
  refine ⟨h.1 [] "k" 0 5 (by decide) (by norm_num [IDEMP_TTL]),
    h.2.2.1 [] "k" 0 5 100 (by decide) (by norm_num [IDEMP_TTL]), ?_, ?_⟩
  · have := h.2.2.2.2.2.1 ([] : IdemMap) "k" 0 (by decide)
    simpa [IDEMP_TTL] using this
  · exact h.2.2.2.1 _ "k" ⟨.accepted, 0 + IDEMP_TTL⟩ 700
      (h.2.2.2.2.2.1 ([] : IdemMap) "k" 0 (by decide))
      (by norm_num [IDEMP_TTL])

/-! ### C8 — DLQ listing -/

/-- C8 counterexample: at `limit = 0` the Python slice `dlq[-0:]` is the
whole list, so a one-element DLQ yields one item — more than `limit`. -/
theorem dlq_list_limit_zero_counterexample :
    (dlq_list [⟨0, 0, 0, none⟩] 0).2 = [⟨0, 0, 0, none⟩] ∧
    ¬ (((dlq_list [⟨0, 0, 0, none⟩] 0).2.length : ℤ) ≤ 0) := by
  decide

/-- C8 as amended: for every `limit ≥ 1` the listing returns
`count = len(dlq)` together with the final segment
`dlq.drop (len - limit)` — the most-recently-appended jobs — which has at
most `limit` elements. -/
theorem dlq_list_spec (dlq : List Job) (limit : ℤ) (h : 1 ≤ limit) :
    (dlq_list dlq limit).1 = dlq.length ∧
    (dlq_list dlq limit).2 = dlq.drop (dlq.length - limit.toNat) ∧
    (((dlq_list dlq limit).2.length : ℤ) ≤ limit) := by
  have hneg : -limit < 0 := by omega
  have hmax : (max 0 ((dlq.length : ℤ) + -limit)).toNat
      = dlq.length - limit.toNat := by
    rcases le_total 0 ((dlq.length : ℤ) + -limit) with hc | hc
    · rw [max_eq_right hc]; omega
    · rw [max_eq_left hc]; omega
  unfold dlq_list pySliceFrom
  rw [if_pos hneg, hmax]
  exact ⟨rfl, rfl, by rw [List.length_drop]; omega⟩

/-- Witness for C8 at a three-element DLQ and `limit = 2`: the two most
recently appended jobs come back, with `count = 3`. -/
theorem dlq_list_spec_witness :
    (1 : ℤ) ≤ 2 ∧
    dlq_list [⟨1, 0, 0, none⟩, ⟨2, 0, 0, none⟩, ⟨3, 0, 0, none⟩] 2
      = (3, [⟨2, 0, 0, none⟩, ⟨3, 0, 0, none⟩]) := by
  have h := dlq_list_spec [⟨1, 0, 0, none⟩, ⟨2, 0, 0, none⟩, ⟨3, 0, 0, none⟩]
    2 (by norm_num)
  refine ⟨by norm_num, ?_⟩
  have h1 := h.1
  have h2 := h.2.1
  have : dlq_list [⟨1, 0, 0, none⟩, ⟨2, 0, 0, none⟩, ⟨3, 0, 0, none⟩] 2
      = ((dlq_list [⟨1, 0, 0, none⟩, ⟨2, 0, 0, none⟩, ⟨3, 0, 0, none⟩] 2).1,
         (dlq_list [⟨1, 0, 0, none⟩, ⟨2, 0, 0, none⟩, ⟨3, 0, 0, none⟩] 2).2) :=
    rfl
  rw [this, h1, h2]
  rfl

/-! ### C6 — DLQ requeue count -/

/-- C6: `moved` is incremented before `put_nowait` is attempted, so when the
queue refuses the very first job the endpoint reports `requeued = 1` while
the DLQ and the queue are exactly as before — zero jobs were moved. -/
theorem dlq_requeue_overcount :
    dlq_requeue [⟨1, 0, 2, none⟩] (List.replicate Q_MAX ⟨0, 0, 0, none⟩)
      Q_MAX 1
      = ([⟨1, 0, 2, none⟩], List.replicate Q_MAX ⟨0, 0, 0, none⟩, 1) ∧
    (1 : ℕ) ≠ 0 := by
  refine ⟨?_, by decide⟩
  unfold dlq_requeue dlq_requeue_loop
  norm_num [List.length_replicate]

/-! ### C2 — dead-letter boundary -/

/-- C2 counterexample.  Scenario A: a job entering its final allowed attempt
(`attempt = 2`, `MAX_ATTEMPTS = 3`) fails and is appended to the DLQ with
its `attempt` field still `2` — the exhaustion branch never writes
`next_attempt` into the item, so the field is `MAX_ATTEMPTS - 1`, not
`MAX_ATTEMPTS`.  Scenario B: a job whose failing execution had
`nextAttempt = 1 < MAX_ATTEMPTS` is nevertheless dead-lettered, because the
delayed re-enqueue found the queue full and the bounded blocking put timed
out — so dead-lettering is not only for `attempt == maxAttempts` failures. -/
theorem dead_letter_boundary_counterexample :
    (process_job Q_MAX initState.engine ⟨7, 3, 2, none⟩ 0 0 false).dlq
      = [⟨7, 3, 2, none⟩] ∧
    Job.attempt ⟨7, 3, 2, none⟩ ≠ MAX_ATTEMPTS ∧
    (process_job Q_MAX
      { initState.engine with queue := List.replicate Q_MAX ⟨0, 0, 0, none⟩ }
      ⟨8, 2, 0, none⟩ 0 0 false).dlq = [⟨8, 2, 1, none⟩] ∧
    (0 : ℕ) + 1 < MAX_ATTEMPTS ∧
    Job.attempt ⟨8, 2, 1, none⟩ ≠ MAX_ATTEMPTS := by
  refine ⟨?_, by decide, ?_, by decide, by decide⟩
  · norm_num [process_job, initState, MAX_ATTEMPTS]
  · norm_num [process_job, delayed_requeue, initState, MAX_ATTEMPTS,
      List.length_replicate]

/-- C2 as amended: a job is appended to the DeadLetterStore iff its
execution failed and either `nextAttempt = attempt + 1 ≥ MAX_ATTEMPTS` — in
which case the appended job keeps its pre-failure `attempt` field, which is
`MAX_ATTEMPTS - 1` for any job respecting `attempt < MAX_ATTEMPTS` — or
`nextAttempt < MAX_ATTEMPTS` but the delayed re-enqueue found the queue full
and its bounded blocking put timed out, in which case the appended job
carries `attempt = nextAttempt < MAX_ATTEMPTS`. -/
theorem dead_letter_boundary_spec (cap : ℕ) (s : EngineState) (item : Job)
    (t u : ℚ) (freed : Bool) :
    (¬ item.attempt < item.fail_times →
      (process_job cap s item t u freed).dlq = s.dlq) ∧
    (item.attempt < item.fail_times → MAX_ATTEMPTS ≤ item.attempt + 1 →
      (process_job cap s item t u freed).dlq = s.dlq ++ [item]) ∧
    (item.attempt < item.fail_times → item.attempt + 1 < MAX_ATTEMPTS →
      (cap ≤ s.queue.length → freed = false →
        (process_job cap s item t u freed).dlq
          = s.dlq ++ [{ item with attempt := item.attempt + 1 }]) ∧
      (s.queue.length < cap ∨ freed = true →
        (process_job cap s item t u freed).dlq = s.dlq)) ∧
    (item.attempt < MAX_ATTEMPTS → MAX_ATTEMPTS ≤ item.attempt + 1 →
      item.attempt = MAX_ATTEMPTS - 1) := by
  refine ⟨?_, ?_, ?_, fun h1 h2 => by omega⟩
  · intro hsucc
    cases hik : item.idempotency_key with
    | none => simp [process_job, hsucc, hik]
    | some k =>
      by_cases hk : k = "" <;> simp [process_job, hsucc, hik, hk]
  · intro hfail hmax
    simp [process_job, hfail, Nat.not_lt.mpr hmax]
  · intro hfail hlt
    constructor
    · intro hq hfr
      simp [process_job, delayed_requeue, hfail, hlt, hfr, Nat.not_lt.mpr hq]
    · intro hor
      rcases hor with hq | hfr
      · simp [process_job, delayed_requeue, hfail, hlt, hq]
      · by_cases hq : s.queue.length < cap <;>
          simp [process_job, delayed_requeue, hfail, hlt, hq, hfr]

/-- Witness for C2's amended claim: a failure at `attempt = 2` appends the
job unchanged to the DLQ. -/
theorem dead_letter_boundary_spec_witness :
    ((2 : ℕ) < 3) ∧ MAX_ATTEMPTS ≤ 2 + 1 ∧
    (process_job Q_MAX initState.engine ⟨9, 3, 2, none⟩ 0 0 true).dlq
      = initState.engine.dlq ++ [⟨9, 3, 2, none⟩] := by
  refine ⟨by decide, by decide, ?_⟩
  exact (dead_letter_boundary_spec Q_MAX initState.engine ⟨9, 3, 2, none⟩
    0 0 true).2.1 (by decide) (by decide)

/-! ### C4 — retry decision, backoff delay, delayed re-enqueue -/

/-- C4: on a failed execution with `nextAttempt = attempt + 1 <
MAX_ATTEMPTS`, the re-enqueued (or, on capacity exhaustion, dead-lettered)
job carries `attempt = nextAttempt`; the slept delay is exactly
`min(BACKOFF_BASE * 2^(nextAttempt-1) + u, BACKOFF_CAP)` for the jitter
draw `u`, hence never exceeds `BACKOFF_CAP` and — pointwise in `u`, so also
in expectation over the uniform draw — is non-decreasing in the attempt
number; the delayed re-enqueue falls back to one bounded blocking put and
then the DLQ when the queue stays full; and with `nextAttempt ≥
MAX_ATTEMPTS` the job goes straight to the DLQ, with no sleep on the trace. -/
theorem retry_scheduling_spec (cap : ℕ) (s : EngineState) (item : Job)
    (t u : ℚ) (freed : Bool) :
    (item.attempt < item.fail_times →
      (item.attempt + 1 < MAX_ATTEMPTS →
        (process_job cap s item t u freed).failures = s.failures + 1 ∧
        (s.queue.length < cap →
          (process_job cap s item t u freed).queue
            = s.queue ++ [{ item with attempt := item.attempt + 1 }] ∧
          (process_job cap s item t u freed).dlq = s.dlq) ∧
        (cap ≤ s.queue.length → freed = true →
          (process_job cap s item t u freed).queue
            = s.queue ++ [{ item with attempt := item.attempt + 1 }] ∧
          (process_job cap s item t u freed).dlq = s.dlq) ∧
        (cap ≤ s.queue.length → freed = false →
          (process_job cap s item t u freed).queue = s.queue ∧
          (process_job cap s item t u freed).dlq
            = s.dlq ++ [{ item with attempt := item.attempt + 1 }]) ∧
        (∀ qf fr, Action.sleep (retry_delay (item.attempt + 1) u)
          ∈ process_job_trace item u qf fr)) ∧
      (MAX_ATTEMPTS ≤ item.attempt + 1 →
        (process_job cap s item t u freed).queue = s.queue ∧
        (process_job cap s item t u freed).dlq = s.dlq ++ [item] ∧
        (∀ qf fr d, Action.sleep d ∉ process_job_trace item u qf fr))) ∧
    retry_delay (item.attempt + 1) u
      = min (BACKOFF_BASE * 2 ^ item.attempt + u) BACKOFF_CAP ∧
    retry_delay (item.attempt + 1) u ≤ BACKOFF_CAP ∧
    (∀ k : ℕ, retry_delay k u ≤ retry_delay (k + 1) u) := by
  refine ⟨?_, by simp [retry_delay], min_le_right _ _, ?_⟩
  · intro hfail
    constructor
    · intro hlt
      refine ⟨?_, ?_, ?_, ?_, ?_⟩
      · simp [process_job, delayed_requeue, hfail, hlt]
      · intro hq
        constructor <;> simp [process_job, delayed_requeue, hfail, hlt, hq]
      · intro hq hfr
        constructor <;>
          simp [process_job, delayed_requeue, hfail, hlt, hfr,
            Nat.not_lt.mpr hq]
      · intro hq hfr
        constructor <;>
          simp [process_job, delayed_requeue, hfail, hlt, hfr,
            Nat.not_lt.mpr hq]
      · intro qf fr
        simp [process_job_trace, delayed_requeue_trace, hfail, hlt]
    · intro hmax
      refine ⟨?_, ?_, ?_⟩
      · simp [process_job, hfail, Nat.not_lt.mpr hmax]
      · simp [process_job, hfail, Nat.not_lt.mpr hmax]
      · intro qf fr d
        by_cases hik : item.idempotency_key = none <;>
          simp [process_job_trace, hfail, Nat.not_lt.mpr hmax]
  · intro k
    unfold retry_delay
    apply min_le_min _ le_rfl
    have hpow : (2 : ℚ) ^ (k - 1) ≤ 2 ^ (k + 1 - 1) :=
      pow_le_pow_right₀ one_le_two (by omega)
    have hbase : (0 : ℚ) ≤ BACKOFF_BASE := by norm_num [BACKOFF_BASE]
    nlinarith [mul_le_mul_of_nonneg_left hpow hbase]

/-- Witness for C4: a first failure of a twice-failing job at an empty
queue re-enqueues it with `attempt = 1`, and the concrete backoff delay with
zero jitter is `0.1 ≤ BACKOFF_CAP`. -/
theorem retry_scheduling_spec_witness :
    ((0 : ℕ) < 2) ∧ ((0 : ℕ) + 1 < MAX_ATTEMPTS) ∧
    (List.length ([] : List Job) < Q_MAX) ∧
    (process_job Q_MAX initState.engine ⟨4, 2, 0, none⟩ 0 0 false).queue
      = [⟨4, 2, 1, none⟩] ∧
    retry_delay (0 + 1) 0 ≤ BACKOFF_CAP := by
  have h := retry_scheduling_spec Q_MAX initState.engine ⟨4, 2, 0, none⟩ 0 0
    false
  refine ⟨by decide, by decide, by decide, ?_, h.2.2.1⟩
  have h2 := (((h.1 (by decide)).1 (by decide)).2.1 (by decide)).1
  simpa [initState] using h2

/-! ### C1 — the retry delay is slept on the worker's own task -/

/-- C1: `process_job` reaches `delayed_requeue` through a plain `await`
(line 182), not `asyncio.create_task`, so the `asyncio.sleep(delay)` runs on
the worker's own coroutine: the worker's iteration trace for a failing job
with attempts remaining contains the sleep strictly between its
`queue.get()` and its `task_done()` — during the whole backoff delay this
worker cannot pull another job.  (The spec and the module's own docstrings
say the wait is an independently scheduled timer that blocks no worker.) -/
theorem worker_sleeps_through_backoff :
    worker_iteration_trace ⟨0, 1, 0, none⟩ 0 false false
      = [.getItem, .incrInProgress, .raiseFailure, .incrFailures,
         .sleep (retry_delay 1 0), .putNowait, .taskDone, .decrInProgress] ∧
    retry_delay 1 0 = 1/10 ∧
    Action.sleep (retry_delay 1 0)
      ∈ worker_iteration_trace ⟨0, 1, 0, none⟩ 0 false false := by
  have htrace : worker_iteration_trace ⟨0, 1, 0, none⟩ 0 false false
      = [.getItem, .incrInProgress, .raiseFailure, .incrFailures,
         .sleep (retry_delay 1 0), .putNowait, .taskDone, .decrInProgress] := by
    simp [worker_iteration_trace, process_job_trace, delayed_requeue_trace,
      MAX_ATTEMPTS]
  have hdelay : retry_delay 1 0 = 1/10 := by
    unfold retry_delay BACKOFF_BASE BACKOFF_CAP
    rw [min_eq_left (by norm_num)]
    norm_num
  exact ⟨htrace, hdelay, by rw [htrace]; simp⟩

/-! ### C3 — admission order and short-circuiting -/

/-- C3: `enqueue` performs its checks in the fixed order global bucket,
per-client bucket, idempotency lookup, queue capacity — each result value
characterises exactly which check rejected — and every rejection leaves all
later-step state untouched: a global rate limit leaves only the global
bucket refilled, a client rate limit additionally the client's bucket, a
duplicate or queue-full answer leaves queue, idempotency table and
`enqueued` counter unchanged, while a successful admission appends the item,
marks a present key accepted and increments `enqueued`. -/
theorem enqueue_order_spec (cap : ℕ) (s : EngineState) (p ft : ℕ)
    (cid : String) (key : Option String) (t : ℚ) :
    ((enqueue cap s p ft cid key t).1 = .rateLimited ↔
      (rl_consume s.gbucket t 1).1 = false) ∧
    ((enqueue cap s p ft cid key t).1 = .rateLimitedClient ↔
      (rl_consume s.gbucket t 1).1 = true ∧
      (rl_consume_client s.cbuckets cid t 1).1 = false) ∧
    (∀ st, (enqueue cap s p ft cid key t).1 = .duplicate st ↔
      (rl_consume s.gbucket t 1).1 = true ∧
      (rl_consume_client s.cbuckets cid t 1).1 = true ∧
      keyTruthy key = true ∧
      idem_get_status s.idem (key.getD "") t = some st) ∧
    ((enqueue cap s p ft cid key t).1 = .queueFull ↔
      (rl_consume s.gbucket t 1).1 = true ∧
      (rl_consume_client s.cbuckets cid t 1).1 = true ∧
      (keyTruthy key = true →
        idem_get_status s.idem (key.getD "") t = none) ∧
      cap ≤ s.queue.length) ∧
    ((enqueue cap s p ft cid key t).1 = .rateLimited →
      (enqueue cap s p ft cid key t).2
        = { s with gbucket := (rl_consume s.gbucket t 1).2 }) ∧
    ((enqueue cap s p ft cid key t).1 = .rateLimitedClient →
      (enqueue cap s p ft cid key t).2
        = { s with
            gbucket := (rl_consume s.gbucket t 1).2
            cbuckets := (rl_consume_client s.cbuckets cid t 1).2 }) ∧
    (∀ st, (enqueue cap s p ft cid key t).1 = .duplicate st →
      (enqueue cap s p ft cid key t).2
        = { s with
            gbucket := (rl_consume s.gbucket t 1).2
            cbuckets := (rl_consume_client s.cbuckets cid t 1).2 }) ∧
    ((enqueue cap s p ft cid key t).1 = .queueFull →
      (enqueue cap s p ft cid key t).2
        = { s with
            gbucket := (rl_consume s.gbucket t 1).2
            cbuckets := (rl_consume_client s.cbuckets cid t 1).2 }) ∧
    (∀ b, (enqueue cap s p ft cid key t).1 = .enqueuedOk b →
      b = keyTruthy key ∧
      (enqueue cap s p ft cid key t).2
        = { s with
            gbucket := (rl_consume s.gbucket t 1).2
            cbuckets := (rl_consume_client s.cbuckets cid t 1).2
            queue := s.queue
              ++ [⟨p, ft, 0, (if keyTruthy key then key else none)⟩]
            idem := (if keyTruthy key then
                idem_set_accepted s.idem (key.getD "") t
              else s.idem)
            enqueued := s.enqueued + 1 }) := by
  by_cases hg : (rl_consume s.gbucket t 1).1
  · by_cases hc : (rl_consume_client s.cbuckets cid t 1).1
    · by_cases hk : keyTruthy key
      · cases hst : idem_get_status s.idem (key.getD "") t with
        | some st => simp [enqueue, hg, hc, hk, hst]
        | none =>
          by_cases hq : cap ≤ s.queue.length <;>
            simp [enqueue, hg, hc, hk, hst, hq]
      · by_cases hq : cap ≤ s.queue.length <;>
          simp [enqueue, hg, hc, hk, hq]
    · simp [enqueue, hg, hc]
  · simp [enqueue, hg]

/-- Witness for C3: a concrete admitted submission on a fresh engine; its
frame clause gives the admitted state, whose `enqueued` counter is 1. -/
theorem enqueue_order_spec_witness :
    (enqueue 5 initState.engine 3 0 "c" none 0).1 = .enqueuedOk false ∧
    (enqueue 5 initState.engine 3 0 "c" none 0).2.enqueued = 1 := by
  have h := enqueue_order_spec 5 initState.engine 3 0 "c" none 0
  have hres : (enqueue 5 initState.engine 3 0 "c" none 0).1
      = .enqueuedOk false := by
    norm_num [enqueue, rl_consume, rl_consume_client, bucketConsume,
      alistGet, keyTruthy, initState, RATE_CAPACITY, RATE_REFILL_PER_SEC,
      CLIENT_RATE_CAPACITY, CLIENT_RATE_REFILL_PER_SEC, min_self]
  have hframe := (h.2.2.2.2.2.2.2.2 false hres).2
  exact ⟨hres, by rw [hframe]; simp [initState]⟩

/-! ### C9 — counter monotonicity and the `inProgress` bound -/

theorem enqueue_counters (cap : ℕ) (s : EngineState) (p ft : ℕ)
    (cid : String) (key : Option String) (t : ℚ) :
    (enqueue cap s p ft cid key t).2.inProgress = s.inProgress ∧
    (enqueue cap s p ft cid key t).2.processed = s.processed ∧
    (enqueue cap s p ft cid key t).2.failures = s.failures ∧
    s.enqueued ≤ (enqueue cap s p ft cid key t).2.enqueued := by
  by_cases hg : (rl_consume s.gbucket t 1).1
  · by_cases hc : (rl_consume_client s.cbuckets cid t 1).1
    · by_cases hk : keyTruthy key
      · cases hst : idem_get_status s.idem (key.getD "") t with
        | some st => simp [enqueue, hg, hc, hk, hst]
        | none =>
          by_cases hq : cap ≤ s.queue.length <;>
            simp [enqueue, hg, hc, hk, hst, hq]
      · by_cases hq : cap ≤ s.queue.length <;>
          simp [enqueue, hg, hc, hk, hq]
    · simp [enqueue, hg, hc]
  · simp [enqueue, hg]

theorem process_job_counters (cap : ℕ) (s : EngineState) (item : Job)
    (t u : ℚ) (freed : Bool) :
    (process_job cap s item t u freed).inProgress = s.inProgress + 1 ∧
    (process_job cap s item t u freed).enqueued = s.enqueued ∧
    s.processed ≤ (process_job cap s item t u freed).processed ∧
    s.failures ≤ (process_job cap s item t u freed).failures := by
  by_cases hfail : item.attempt < item.fail_times
  · by_cases hlt : item.attempt + 1 < MAX_ATTEMPTS
    · by_cases hq : s.queue.length < cap <;> cases freed <;>
        simp [process_job, delayed_requeue, hfail, hlt, hq]
    · simp [process_job, hfail, hlt]
  · cases hik : item.idempotency_key with
    | none => simp [process_job, hfail, hik]
    | some k => by_cases hk : k = "" <;> simp [process_job, hfail, hik, hk]

theorem countDone_update (f : Fin WORKERS → Phase) (w : Fin WORKERS)
    (v : Phase) :
    countDone (Function.update f w v) + (if f w = Phase.done then 1 else 0)
      = countDone f + (if v = Phase.done then 1 else 0) := by
  unfold countDone
  rw [← Finset.sum_erase_add Finset.univ _ (Finset.mem_univ w),
    ← Finset.sum_erase_add Finset.univ
      (fun x => if f x = Phase.done then 1 else 0) (Finset.mem_univ w)]
  rw [Function.update_same]
  have hsum : ∑ x ∈ Finset.univ.erase w,
      (if Function.update f w v x = Phase.done then 1 else 0)
      = ∑ x ∈ Finset.univ.erase w, (if f x = Phase.done then 1 else 0) :=
    Finset.sum_congr rfl (fun x hx => by
      rw [Function.update_noteq (Finset.ne_of_mem_erase hx)])
  rw [hsum]
  ring

theorem countDone_le (f : Fin WORKERS → Phase) : countDone f ≤ WORKERS := by
  unfold countDone
  calc ∑ w, (if f w = Phase.done then 1 else 0)
      ≤ ∑ _w : Fin WORKERS, 1 :=
        Finset.sum_le_sum (fun i _ => by split <;> omega)
    _ = WORKERS := by simp

theorem countDone_pos (f : Fin WORKERS → Phase) (w : Fin WORKERS)
    (h : f w = Phase.done) : 1 ≤ countDone f := by
  unfold countDone
  rw [← Finset.sum_erase_add Finset.univ _ (Finset.mem_univ w), if_pos h]
  exact Nat.le_add_left 1 _

/-- Each atomic step keeps `inProgress` equal to the number of workers past
their `in_progress += 1` and before their `finally` decrement. -/
theorem step_preserves_inv {s s' : SysState} (hstep : Step s s')
    (hinv : s.engine.inProgress = countDone s.phases) :
    s'.engine.inProgress = countDone s'.phases := by
  cases hstep with
  | enqueueStep p ft cid key t =>
    show (enqueue Q_MAX s.engine p ft cid key t).2.inProgress
      = countDone s.phases
    rw [(enqueue_counters Q_MAX s.engine p ft cid key t).1]
    exact hinv
  | pull w j rest hidle hqueue =>
    show s.engine.inProgress = countDone (Function.update s.phases w (.got j))
    have h := countDone_update s.phases w (.got j)
    simp [hidle] at h
    rw [h]
    exact hinv
  | exec w j t u freed hgot =>
    show (process_job Q_MAX s.engine j t u freed).inProgress
      = countDone (Function.update s.phases w .done)
    rw [(process_job_counters Q_MAX s.engine j t u freed).1]
    have h := countDone_update s.phases w .done
    simp [hgot] at h
    rw [h, hinv]
  | finish w hdone =>
    show s.engine.inProgress - 1
      = countDone (Function.update s.phases w .idle)
    have h := countDone_update s.phases w .idle
    simp [hdone] at h
    omega
  | dlqRequeueStep limit => exact hinv
  | sweepStep t => exact hinv

/-- In every state reachable from startup, `inProgress` counts the workers
currently inside a job. -/
theorem reachable_inv {s : SysState} (h : Reachable initState s) :
    s.engine.inProgress = countDone s.phases := by
  induction h with
  | refl => simp [initState, countDone]
  | tail hr hstep ih => exact step_preserves_inv hstep ih

/-- No single step decreases `enqueued`, `processed` or `failures`. -/
theorem step_counters_mono {s s' : SysState} (hstep : Step s s') :
    s.engine.enqueued ≤ s'.engine.enqueued ∧
    s.engine.processed ≤ s'.engine.processed ∧
    s.engine.failures ≤ s'.engine.failures := by
  cases hstep with
  | enqueueStep p ft cid key t =>
    have h := enqueue_counters Q_MAX s.engine p ft cid key t
    exact ⟨h.2.2.2, le_of_eq h.2.1.symm, le_of_eq h.2.2.1.symm⟩
  | pull w j rest hidle hqueue => exact ⟨le_rfl, le_rfl, le_rfl⟩
  | exec w j t u freed hgot =>
    have h := process_job_counters Q_MAX s.engine j t u freed
    exact ⟨le_of_eq h.2.1.symm, h.2.2.1, h.2.2.2⟩
  | finish w hdone => exact ⟨le_rfl, le_rfl, le_rfl⟩
  | dlqRequeueStep limit => exact ⟨le_rfl, le_rfl, le_rfl⟩
  | sweepStep t => exact ⟨le_rfl, le_rfl, le_rfl⟩

/-- C9: in every state reachable from startup, `inProgress` is at most the
worker count (it is a `ℕ`, so `0 ≤ inProgress` holds by construction, as in
the code's `max(0, in_progress - 1)`), and no operation of the engine — an
admission, any stage of a worker iteration, a DLQ requeue or an idempotency
sweep — decreases the `enqueued`, `processed` or `failures` counters. -/
theorem counters_monotone_inProgress_bounded :
    ∀ s : SysState, Reachable initState s →
      s.engine.inProgress ≤ WORKERS ∧
      ∀ s' : SysState, Step s s' →
        s.engine.enqueued ≤ s'.engine.enqueued ∧
        s.engine.processed ≤ s'.engine.processed ∧
        s.engine.failures ≤ s'.engine.failures := by
  intro s hr
  refine ⟨?_, fun s' hstep => step_counters_mono hstep⟩
  rw [reachable_inv hr]
  exact countDone_le _

/-- Witness for C9: the startup state itself, and one admission step out of
it. -/
theorem counters_monotone_inProgress_bounded_witness :
    initState.engine.inProgress ≤ WORKERS ∧
    initState.engine.enqueued
      ≤ (enqueue Q_MAX initState.engine 0 0 "c" none 0).2.enqueued := by
  have h := counters_monotone_inProgress_bounded initState
    (Reachable.refl initState)
  exact ⟨h.1,
    (h.2 ⟨(enqueue Q_MAX initState.engine 0 0 "c" none 0).2, initState.phases⟩
      (Step.enqueueStep initState 0 0 "c" none 0)).1⟩

end JobQueueService
